import Mathlib

/-!
Verification of the flower-shop ledger subsystem.

This file gives a shallow embedding of the ledger / debt-recalculation core of
the flower-shop application (the `DailySheet` table, the `recalculate_debts`
sweep, the Daily Sheet add / edit / delete flows, and the price lookups), and
proves the stated properties about them.

Modelling conventions:
  * SQL `REAL` columns are modelled as `ℚ`.
  * The `DailySheet` table is a `List Row`; the `Id INTEGER PRIMARY KEY
    AUTOINCREMENT` column is a `Nat` field, and well-formedness of a table
    state is expressed by the hypothesis `(db.map Row.id).Nodup`.
  * `SELECT ... WHERE DebitCredit = 'Credit' and BuyerName = ? ORDER BY Id`
    is modelled by filtering the list and insertion-sorting it by `id`.
  * SQL `TEXT` dates ("YYYY-MM-DD") are `String`s; the byte-wise TEXT
    comparison used by the store is modelled by a structural comparison on
    the character lists.
-/

namespace FlowerShop

/-- The `DebitCredit` column of the `DailySheet` table. -/
inductive Direction where
  | Debit
  | Credit
deriving DecidableEq

/-- One row of the `DailySheet` table:
`(Id, Date, Name, FlowerName, Qty, Rate, Amount, DebitCredit, Debt, BuyerName)`. -/
structure Row where
  id : Nat
  date : String
  name : String
  flowerName : String
  qty : ℚ
  rate : ℚ
  amount : ℚ
  direction : Direction
  debt : ℚ
  buyerName : String
deriving DecidableEq

/-- One row of the `DailyFlowerPrice` table: `(FlowerName, Date, Price)`. -/
structure PriceEntry where
  flowerName : String
  date : String
  price : ℚ
deriving DecidableEq

/-- Byte-wise comparison of character lists, as the embedded store compares
`TEXT` values ("YYYY-MM-DD" dates compare chronologically this way). -/
def charListLt : List Char → List Char → Bool
  | _, [] => false
  | [], _ :: _ => true
  | a :: as, b :: bs =>
      if a.toNat < b.toNat then true
      else if b.toNat < a.toNat then false
      else charListLt as bs

/-- `TEXT` strict comparison on strings (used for dates). -/
def strLtB (s t : String) : Bool := charListLt s.data t.data

/-- `TEXT` comparison `s <= t` on strings (used for dates). -/
def strLeB (s t : String) : Bool := strLtB s t || s == t

/-- The per-row signed amount,
`row['Amount'] if row['DebitCredit'] == 'Credit' else -row['Amount']`. -/
def signedAmount (r : Row) : ℚ :=
  if r.direction = Direction.Credit then r.amount else -r.amount

/-- Insert a row into a list sorted by ascending `id`. -/
def insertById (r : Row) : List Row → List Row
  | [] => [r]
  | s :: rest => if r.id ≤ s.id then r :: s :: rest else s :: insertById r rest

/-- Sort rows by ascending `id` (the effect of `ORDER BY Id`). -/
def sortById : List Row → List Row
  | [] => []
  | r :: rest => insertById r (sortById rest)

/-- `SELECT * FROM DailySheet WHERE DebitCredit = 'Credit' and BuyerName = ?
ORDER BY Id`. -/
def fetchCredit (db : List Row) (b : String) : List Row :=
  sortById (db.filter fun r => decide (r.direction = Direction.Credit ∧ r.buyerName = b))

/-- One `UPDATE DailySheet SET Debt = ? WHERE DebitCredit = 'Credit' and Id = ?`
statement, applied to a single stored row. -/
def updateDebtRow (i : Nat) (v : ℚ) (s : Row) : Row :=
  if s.direction = Direction.Credit ∧ s.id = i then { s with debt := v } else s

/-- The `for index, row in df.iterrows()` loop of `recalculate_debts`: walk the
fetched rows, accumulate the running debt, and issue one `UPDATE` per row. -/
def recalcLoop (rows : List Row) (running : ℚ) (db : List Row) : List Row :=
  match rows with
  | [] => db
  | r :: rest =>
      recalcLoop rest (running + signedAmount r)
        (db.map (updateDebtRow r.id (running + signedAmount r)))

/-- `recalculate_debts(conn, buyer_name)`: fetch the buyer's Credit rows in
`id` order; if the result is empty return immediately, otherwise run the
running-sum update loop starting from `running_debt = 0.0`. -/
def recalculate_debts (db : List Row) (buyer_name : String) : List Row :=
  if (fetchCredit db buyer_name).isEmpty then db
  else recalcLoop (fetchCredit db buyer_name) 0 db

/-- `SELECT * FROM DailySheet WHERE BuyerName = ?` followed by summing the
per-row signed amounts (the `current_debt` computation of the add / edit
forms; an empty result gives `0.0`). -/
def currentDebt (db : List Row) (b : String) : ℚ :=
  ((db.filter fun r => decide (r.buyerName = b)).map signedAmount).sum

/-- The largest `Id` present in the table (`0` when the table is empty). -/
def maxId (db : List Row) : Nat :=
  db.foldr (fun r acc => max r.id acc) 0

/-- The `Id` that `AUTOINCREMENT` assigns to the next inserted row. -/
def nextId (db : List Row) : Nat := maxId db + 1

/-- Outcome of submitting one of the Daily Sheet forms. -/
inductive FormResult where
  | noAction
  | rejected (msg : String) (db : List Row)
  | added (db : List Row)
deriving DecidableEq

/-- The Add Transaction form of the Daily Sheet section: the handler runs only
when the customer name and flower name are non-empty; a Credit submission with
an empty buyer name is rejected with an error message before any row is
written; otherwise the row is inserted (with the provisional `new_debt` value
computed in the form) and `recalculate_debts` runs for the buyer. -/
def add_transaction_form (db : List Row) (date_str cname fname : String)
    (qty rate : ℚ) (debit_credit : Direction) (buyer_name : String) : FormResult :=
  if cname = "" ∨ fname = "" then FormResult.noAction
  else if debit_credit = Direction.Credit ∧ buyer_name = "" then
    FormResult.rejected "Buyer Name is required when Debit/Credit is set to Credit." db
  else
    FormResult.added (recalculate_debts
      (db ++ [{ id := nextId db, date := date_str, name := cname, flowerName := fname,
                qty := qty, rate := rate, amount := qty * rate,
                direction := debit_credit,
                debt := if debit_credit = Direction.Credit
                        then currentDebt db buyer_name + qty * rate
                        else -(qty * rate),
                buyerName := buyer_name }]) buyer_name)

/-- The values entered in the Edit Transaction form. -/
structure EditInput where
  date : String
  name : String
  flowerName : String
  qty : ℚ
  rate : ℚ
  direction : Direction
  buyerName : String

/-- The provisional `new_debt` shown and stored by the Edit Transaction form:
`current_debt` of the newly selected buyer, minus the old signed amount when
the buyer is unchanged (`temp_debt`), plus the new signed amount. -/
def edit_new_debt (db : List Row) (inp : EditInput) (old : Row) : ℚ :=
  (if inp.buyerName = old.buyerName
   then currentDebt db inp.buyerName - signedAmount old
   else currentDebt db inp.buyerName) +
  (if inp.direction = Direction.Credit then inp.qty * inp.rate else -(inp.qty * inp.rate))

/-- The row written by the `UPDATE DailySheet SET ... WHERE Id = ?` statement
of the Edit Transaction form. -/
def updatedRow (selId : Nat) (inp : EditInput) (new_debt : ℚ) : Row :=
  { id := selId, date := inp.date, name := inp.name, flowerName := inp.flowerName,
    qty := inp.qty, rate := inp.rate, amount := inp.qty * inp.rate,
    direction := inp.direction, debt := new_debt, buyerName := inp.buyerName }

/-- The Update branch of the Edit Transaction form: look up the selected row
(remembering its previous buyer), overwrite all of its columns (with the
provisional `new_debt` computed in the form), then run `recalculate_debts`
for the old buyer, and also for the new buyer when the buyer changed. -/
def edit_transaction_update (db : List Row) (selId : Nat) (inp : EditInput) : List Row :=
  match db.find? (fun r => decide (r.id = selId)) with
  | none => db
  | some old =>
      let db1 := db.map (fun r =>
        if r.id = selId then updatedRow selId inp (edit_new_debt db inp old) else r)
      let db2 := recalculate_debts db1 old.buyerName
      if inp.buyerName = old.buyerName then db2
      else recalculate_debts db2 inp.buyerName

/-- The Delete branch of the Edit Transaction form: look up the selected row
(remembering its buyer), `DELETE FROM DailySheet WHERE Id = ?`, then run
`recalculate_debts` for the remembered buyer. -/
def delete_transaction_flow (db : List Row) (selId : Nat) : List Row :=
  match db.find? (fun r => decide (r.id = selId)) with
  | none => db
  | some old =>
      recalculate_debts (db.filter fun r => decide (¬ r.id = selId)) old.buyerName

/-- `SELECT Price FROM DailyFlowerPrice WHERE FlowerName = ? AND Date = ?`
(exact-match lookup used to pre-fill the rate in the add-transaction form). -/
def getPrice (prices : List PriceEntry) (flower d : String) : Option ℚ :=
  (prices.find? fun p => decide (p.flowerName = flower ∧ p.date = d)).map PriceEntry.price

/-- `default_rate = result[0] if result else 0.0`: the value the Streamlit
add-transaction form pre-fills into the Rate field. -/
def default_rate (prices : List PriceEntry) (flower d : String) : ℚ :=
  match getPrice prices flower d with
  | some p => p
  | none => 0

/-- Pick the candidate price entry with the latest date
(`ORDER BY price_date DESC LIMIT 1`). -/
def bestEntry (cands : List PriceEntry) : Option PriceEntry :=
  cands.foldl (fun acc p =>
    match acc with
    | none => some p
    | some q => if strLtB q.date p.date then some p else some q) none

/-- `fetch_today_price` of the desktop variant: the most recent price for the
flower on or before the given date, or `None` when there is no such entry. -/
def fetch_today_price (prices : List PriceEntry) (flower ymd : String) : Option ℚ :=
  (bestEntry (prices.filter fun p => decide (p.flowerName = flower) && strLeB p.date ymd)).map
    PriceEntry.price

/-- The running-sum loop with the per-row signed-amount conditional replaced by
an unconditional `running += row.amount` (the simplified loop of claim C10). -/
def recalcLoopUnsigned (rows : List Row) (running : ℚ) (db : List Row) : List Row :=
  match rows with
  | [] => db
  | r :: rest =>
      recalcLoopUnsigned rest (running + r.amount)
        (db.map (updateDebtRow r.id (running + r.amount)))

/-- Simplified recalculation that unconditionally adds each fetched row's
`Amount` to the running total (the comparand of claim C10). -/
def recalculate_debts_simplified (db : List Row) (buyer_name : String) : List Row :=
  if (fetchCredit db buyer_name).isEmpty then db
  else recalcLoopUnsigned (fetchCredit db buyer_name) 0 db

/-- The core contract: for a buyer `b`, the `k`-th Credit row of `db` for `b`
in ascending-`id` order carries as `Debt` the sum of the first `k+1` amounts
of that sequence. -/
def invariantHolds (db : List Row) (b : String) : Prop :=
  ∀ (k : Nat) (r : Row), (fetchCredit db b)[k]? = some r →
    r.debt = (((fetchCredit db b).map Row.amount).take (k + 1)).sum

/-- Two rows agreeing on every column except possibly `Debt`. -/
def sameExceptDebt (r s : Row) : Prop :=
  r.id = s.id ∧ r.date = s.date ∧ r.name = s.name ∧ r.flowerName = s.flowerName ∧
  r.qty = s.qty ∧ r.rate = s.rate ∧ r.amount = s.amount ∧ r.direction = s.direction ∧
  r.buyerName = s.buyerName

/-- The cumulative effect of the update loop on one stored row: a functional
view of `recalcLoop` from the point of view of a single row of the table. -/
def applyUpdatesRow : List Row → ℚ → Row → Row
  | [], _, s => s
  | r :: rest, running, s =>
      applyUpdatesRow rest (running + signedAmount r)
        (updateDebtRow r.id (running + signedAmount r) s)

/-- Rewrite a row sequence so that each row's `debt` is the accumulated signed
sum up to and including that row. -/
def setDebts : ℚ → List Row → List Row
  | _, [] => []
  | acc, r :: rest =>
      { r with debt := acc + signedAmount r } :: setDebts (acc + signedAmount r) rest

/-- Shorthand for building concrete `DailySheet` rows in sample states. -/
def sampleRow (i : Nat) (d : String) (a : ℚ) (dir : Direction) (debt : ℚ)
    (b : String) : Row :=
  { id := i, date := d, name := "cust", flowerName := "Rose", qty := 1, rate := a,
    amount := a, direction := dir, debt := debt, buyerName := b }

/-- A sample ledger: buyer `B1` has Credit rows of amounts 100 and 200 (with a
Debit row of 50 in between) and buyer `B2` one Credit row of amount 70; all
stored debts already satisfy the running-sum contract. -/
def sampleDb : List Row :=
  [sampleRow 1 "2024-01-01" 100 Direction.Credit 100 "B1",
   sampleRow 2 "2024-01-02" 50 Direction.Debit (-50) "B1",
   sampleRow 3 "2024-01-03" 200 Direction.Credit 300 "B1",
   sampleRow 4 "2024-01-01" 70 Direction.Credit 70 "B2"]

/-- A second sample ledger: buyer `A` and buyer `B` each hold one Credit row,
with correct stored debts. -/
def sampleDb2 : List Row :=
  [sampleRow 1 "2024-02-01" 100 Direction.Credit 100 "A",
   sampleRow 2 "2024-02-02" 70 Direction.Credit 70 "B"]

/-- A fresh Credit row for buyer `B1` dated earlier than every `sampleDb` row. -/
def sampleNewRow : Row :=
  sampleRow 5 "2023-12-25" 40 Direction.Credit 0 "B1"

/-- Edit-form input that moves the selected transaction to buyer `B`. -/
def sampleEdit : EditInput :=
  { date := "2024-02-01", name := "cust", flowerName := "Rose", qty := 1, rate := 100,
    direction := Direction.Credit, buyerName := "B" }

/-- The row the Add Transaction form inserts into `sampleDb` for a Credit
purchase of 2 kg at rate 30 by buyer `B1` (provisional debt `250 + 60`). -/
def sampleInsRow : Row :=
  { id := 5, date := "2024-05-01", name := "cust", flowerName := "Rose", qty := 2, rate := 30,
    amount := 60, direction := Direction.Credit, debt := 310, buyerName := "B1" }

/-! Basic structural lemmas. -/

theorem row_eta (r : Row) : ({ r with debt := r.debt } : Row) = r := rfl

theorem recalcLoop_eq_map (rows : List Row) : ∀ (running : ℚ) (db : List Row),
    recalcLoop rows running db = db.map (applyUpdatesRow rows running) := by
  induction rows with
  | nil =>
      intro running db
      simp [recalcLoop, applyUpdatesRow]
  | cons r rest ih =>
      intro running db
      simp only [recalcLoop, applyUpdatesRow, ih, List.map_map]
      rfl

theorem applyUpdatesRow_shape (rows : List Row) : ∀ (v : ℚ) (s : Row),
    ∃ d, applyUpdatesRow rows v s = { s with debt := d } := by
  induction rows with
  | nil =>
      intro v s
      exact ⟨s.debt, (row_eta s).symm⟩
  | cons r rest ih =>
      intro v s
      simp only [applyUpdatesRow, updateDebtRow]
      by_cases h : s.direction = Direction.Credit ∧ s.id = r.id
      · rw [if_pos h]
        obtain ⟨d, hd⟩ := ih (v + signedAmount r) { s with debt := v + signedAmount r }
        exact ⟨d, hd⟩
      · rw [if_neg h]
        exact ih _ s

theorem applyUpdatesRow_id (rows : List Row) (v : ℚ) (s : Row) :
    (applyUpdatesRow rows v s).id = s.id := by
  obtain ⟨d, hd⟩ := applyUpdatesRow_shape rows v s
  rw [hd]

theorem applyUpdatesRow_direction (rows : List Row) (v : ℚ) (s : Row) :
    (applyUpdatesRow rows v s).direction = s.direction := by
  obtain ⟨d, hd⟩ := applyUpdatesRow_shape rows v s
  rw [hd]

theorem applyUpdatesRow_buyerName (rows : List Row) (v : ℚ) (s : Row) :
    (applyUpdatesRow rows v s).buyerName = s.buyerName := by
  obtain ⟨d, hd⟩ := applyUpdatesRow_shape rows v s
  rw [hd]

theorem applyUpdatesRow_amount (rows : List Row) (v : ℚ) (s : Row) :
    (applyUpdatesRow rows v s).amount = s.amount := by
  obtain ⟨d, hd⟩ := applyUpdatesRow_shape rows v s
  rw [hd]

theorem sameExceptDebt_of_shape {t s : Row} (h : ∃ d, t = { s with debt := d }) :
    sameExceptDebt t s := by
  obtain ⟨d, rfl⟩ := h
  exact ⟨rfl, rfl, rfl, rfl, rfl, rfl, rfl, rfl, rfl⟩

/-! Commutation of the fetch (filter + sort) with debt-only rewrites of the
table. -/

theorem filter_map_pres (f : Row → Row) (p : Row → Bool) (hp : ∀ s, p (f s) = p s) :
    ∀ l : List Row, (l.map f).filter p = (l.filter p).map f := by
  intro l
  induction l with
  | nil => rfl
  | cons s rest ih =>
      simp only [List.map_cons, List.filter_cons, hp s]
      cases p s
      · simpa using ih
      · simp [ih]

theorem filter_credit_map (f : Row → Row)
    (hf : ∀ s, ∃ d, f s = { s with debt := d }) (db : List Row) (b : String) :
    ((db.map f).filter fun r => decide (r.direction = Direction.Credit ∧ r.buyerName = b)) =
      ((db.filter fun r => decide (r.direction = Direction.Credit ∧ r.buyerName = b)).map f) := by
  refine filter_map_pres f _ (fun s => ?_) db
  obtain ⟨d, hd⟩ := hf s
  rw [hd]

theorem insertById_map (f : Row → Row) (hid : ∀ s, (f s).id = s.id) (r : Row) :
    ∀ l : List Row, insertById (f r) (l.map f) = (insertById r l).map f := by
  intro l
  induction l with
  | nil => rfl
  | cons s rest ih =>
      simp only [List.map_cons, insertById, hid]
      by_cases h : r.id ≤ s.id
      · rw [if_pos h, if_pos h]
        rfl
      · rw [if_neg h, if_neg h]
        simp only [List.map_cons, ih]

theorem sortById_map (f : Row → Row) (hid : ∀ s, (f s).id = s.id) :
    ∀ l : List Row, sortById (l.map f) = (sortById l).map f := by
  intro l
  induction l with
  | nil => rfl
  | cons s rest ih =>
      simp only [List.map_cons, sortById, ih, insertById_map f hid]

theorem fetchCredit_map (f : Row → Row)
    (hf : ∀ s, ∃ d, f s = { s with debt := d }) (db : List Row) (b : String) :
    fetchCredit (db.map f) b = (fetchCredit db b).map f := by
  unfold fetchCredit
  rw [filter_credit_map f hf, sortById_map f]
  intro s
  obtain ⟨d, hd⟩ := hf s
  rw [hd]

theorem recalc_eq_map (db : List Row) (b : String) :
    recalculate_debts db b = db.map (applyUpdatesRow (fetchCredit db b) 0) := by
  unfold recalculate_debts
  by_cases h : (fetchCredit db b).isEmpty
  · rw [if_pos h]
    rw [List.isEmpty_iff] at h
    rw [h]
    simp [applyUpdatesRow]
  · rw [if_neg h]
    exact recalcLoop_eq_map _ _ _

theorem fetchCredit_recalc (db : List Row) (b b' : String) :
    fetchCredit (recalculate_debts db b') b =
      (fetchCredit db b).map (applyUpdatesRow (fetchCredit db b') 0) := by
  rw [recalc_eq_map, fetchCredit_map _ (applyUpdatesRow_shape _ 0)]

theorem recalc_map_id (db : List Row) (b : String) :
    (recalculate_debts db b).map Row.id = db.map Row.id := by
  rw [recalc_eq_map, List.map_map]
  exact List.map_congr_left fun s _ => applyUpdatesRow_id _ _ s

/-! Permutation, membership and `Nodup` facts about the fetch. -/

theorem insertById_perm (r : Row) : ∀ l : List Row, List.Perm (insertById r l) (r :: l) := by
  intro l
  induction l with
  | nil => exact List.Perm.refl _
  | cons s rest ih =>
      simp only [insertById]
      by_cases h : r.id ≤ s.id
      · rw [if_pos h]
      · rw [if_neg h]
        exact (ih.cons s).trans (List.Perm.swap r s rest)

theorem sortById_perm : ∀ l : List Row, List.Perm (sortById l) l := by
  intro l
  induction l with
  | nil => exact List.Perm.refl _
  | cons s rest ih =>
      exact (insertById_perm s (sortById rest)).trans (ih.cons s)

theorem mem_fetchCredit {r : Row} {db : List Row} {b : String} :
    r ∈ fetchCredit db b ↔ r ∈ db ∧ r.direction = Direction.Credit ∧ r.buyerName = b := by
  unfold fetchCredit
  rw [(sortById_perm _).mem_iff, List.mem_filter]
  simp

theorem fetchCredit_ids_nodup {db : List Row} (b : String)
    (hnd : (db.map Row.id).Nodup) : ((fetchCredit db b).map Row.id).Nodup := by
  have h1 : ((db.filter fun r =>
      decide (r.direction = Direction.Credit ∧ r.buyerName = b)).map Row.id).Sublist
      (db.map Row.id) := (List.filter_sublist db).map Row.id
  have h2 := hnd.sublist h1
  exact (((sortById_perm _).map Row.id).nodup_iff).mpr h2

theorem eq_of_mem_of_id_eq {l : List Row} (hnd : (l.map Row.id).Nodup)
    {x y : Row} (hx : x ∈ l) (hy : y ∈ l) (h : x.id = y.id) : x = y :=
  List.inj_on_of_nodup_map hnd hx hy h

/-! Which rows the update loop leaves alone, and what it writes to the rows it
hits. -/

theorem applyUpdatesRow_of_not_credit (rows : List Row) : ∀ (v : ℚ) (s : Row),
    s.direction ≠ Direction.Credit → applyUpdatesRow rows v s = s := by
  induction rows with
  | nil => intro v s _; rfl
  | cons r rest ih =>
      intro v s hs
      simp only [applyUpdatesRow, updateDebtRow]
      rw [if_neg (fun h => hs h.1)]
      exact ih _ s hs

theorem applyUpdatesRow_of_not_mem (rows : List Row) : ∀ (v : ℚ) (s : Row),
    s.id ∉ rows.map Row.id → applyUpdatesRow rows v s = s := by
  induction rows with
  | nil => intro v s _; rfl
  | cons r rest ih =>
      intro v s hs
      rw [List.map_cons, List.mem_cons] at hs
      push_neg at hs
      simp only [applyUpdatesRow, updateDebtRow]
      rw [if_neg (fun h => hs.1 h.2)]
      exact ih _ s hs.2

theorem applyUpdatesRow_hit (rows : List Row) : ∀ (k : Nat) (hk : k < rows.length)
    (v : ℚ) (s : Row), (rows.map Row.id).Nodup → s.direction = Direction.Credit →
    s.id = (rows.get ⟨k, hk⟩).id →
    applyUpdatesRow rows v s =
      { s with debt := v + ((rows.take (k + 1)).map signedAmount).sum } := by
  induction rows with
  | nil => intro k hk; exact absurd hk (by simp)
  | cons r rest ih =>
      intro k hk v s hnd hcredit hid
      rw [List.map_cons, List.nodup_cons] at hnd
      match k with
      | 0 =>
          have hid0 : s.id = r.id := hid
          simp only [applyUpdatesRow, updateDebtRow]
          rw [if_pos ⟨hcredit, hid0⟩]
          have hnot : ({ s with debt := v + signedAmount r } : Row).id ∉ rest.map Row.id := by
            simpa [hid0] using hnd.1
          rw [applyUpdatesRow_of_not_mem rest _ _ hnot]
          simp
      | k + 1 =>
          have hmem : s.id ∈ rest.map Row.id := by
            rw [hid]
            exact List.mem_map_of_mem Row.id (rest.get_mem _ _)
          have hne : ¬ s.id = r.id := fun h => hnd.1 (h ▸ hmem)
          simp only [applyUpdatesRow, updateDebtRow]
          rw [if_neg (fun h => hne h.2)]
          rw [ih k (by simpa using hk) (v + signedAmount r) s hnd.2 hcredit hid]
          simp [add_assoc]

/-! Characterisation of the whole recalculation sweep through `setDebts`. -/

theorem setDebts_length (l : List Row) : ∀ acc : ℚ, (setDebts acc l).length = l.length := by
  induction l with
  | nil => intro acc; rfl
  | cons r rest ih => intro acc; simp [setDebts, ih]

theorem setDebts_get (l : List Row) : ∀ (acc : ℚ) (k : Nat) (hk : k < l.length)
    (hk2 : k < (setDebts acc l).length),
    (setDebts acc l).get ⟨k, hk2⟩ =
      { l.get ⟨k, hk⟩ with debt := acc + ((l.take (k + 1)).map signedAmount).sum } := by
  induction l with
  | nil => intro acc k hk; exact absurd hk (by simp)
  | cons r rest ih =>
      intro acc k hk hk2
      match k with
      | 0 => simp [setDebts]
      | k + 1 =>
          simp only [setDebts, List.get_cons_succ]
          rw [ih (acc + signedAmount r) k (by simpa using hk) (by simpa [setDebts_length] using hk2)]
          simp [add_assoc]

theorem setDebts_map_amount (l : List Row) : ∀ acc : ℚ,
    (setDebts acc l).map Row.amount = l.map Row.amount := by
  induction l with
  | nil => intro acc; rfl
  | cons r rest ih => intro acc; simp [setDebts, ih]

theorem setDebts_map_signed (l : List Row) : ∀ acc : ℚ,
    (setDebts acc l).map signedAmount = l.map signedAmount := by
  induction l with
  | nil => intro acc; rfl
  | cons r rest ih =>
      intro acc
      simp [setDebts, ih, signedAmount]

theorem setDebts_map_shape (f : Row → Row)
    (hf : ∀ s, ∃ d, f s = { s with debt := d }) (l : List Row) : ∀ acc : ℚ,
    setDebts acc (l.map f) = setDebts acc l := by
  induction l with
  | nil => intro acc; rfl
  | cons r rest ih =>
      intro acc
      obtain ⟨d, hd⟩ := hf r
      simp only [List.map_cons, setDebts, hd]
      have hs : signedAmount { r with debt := d } = signedAmount r := by
        simp [signedAmount]
      rw [hs, ih]

theorem fetchCredit_recalc_self (db : List Row) (b : String)
    (hnd : (db.map Row.id).Nodup) :
    fetchCredit (recalculate_debts db b) b = setDebts 0 (fetchCredit db b) := by
  rw [fetchCredit_recalc]
  have hlen : ((fetchCredit db b).map
      (applyUpdatesRow (fetchCredit db b) 0)).length = (setDebts 0 (fetchCredit db b)).length := by
    simp [setDebts_length]
  refine List.ext_get hlen ?_
  intro k h1 h2
  have hk : k < (fetchCredit db b).length := by simpa using h1
  have hmem : (fetchCredit db b).get ⟨k, hk⟩ ∈ fetchCredit db b := (fetchCredit db b).get_mem _ _
  have hcredit : ((fetchCredit db b).get ⟨k, hk⟩).direction = Direction.Credit :=
    (mem_fetchCredit.mp hmem).2.1
  have hget : ((fetchCredit db b).map (applyUpdatesRow (fetchCredit db b) 0)).get ⟨k, h1⟩ =
      applyUpdatesRow (fetchCredit db b) 0 ((fetchCredit db b).get ⟨k, hk⟩) := by
    simp
  rw [hget, applyUpdatesRow_hit (fetchCredit db b) k hk 0 _
      (fetchCredit_ids_nodup b hnd) hcredit rfl,
    setDebts_get (fetchCredit db b) 0 k hk h2]

/-! The prefix-sum invariant established by a recalculation sweep. -/

theorem sum_signed_eq_sum_amount (l : List Row)
    (h : ∀ r ∈ l, r.direction = Direction.Credit) :
    (l.map signedAmount).sum = (l.map Row.amount).sum := by
  induction l with
  | nil => rfl
  | cons r rest ih =>
      simp only [List.map_cons, List.sum_cons]
      rw [ih (fun t ht => h t (List.mem_cons_of_mem r ht))]
      have := h r (List.mem_cons_self r rest)
      simp [signedAmount, this]

theorem recalc_invariant (db : List Row) (b : String)
    (hnd : (db.map Row.id).Nodup) : invariantHolds (recalculate_debts db b) b := by
  have hfc := fetchCredit_recalc_self db b hnd
  intro k r hr
  rw [hfc] at hr ⊢
  rcases List.getElem?_eq_some.mp hr with ⟨hk1, hval⟩
  have hk2 : k < (fetchCredit db b).length := by
    have := hk1
    rwa [setDebts_length] at this
  have hval' : (setDebts 0 (fetchCredit db b)).get ⟨k, hk1⟩ = r := by
    rw [List.get_eq_getElem]
    exact hval
  rw [setDebts_get (fetchCredit db b) 0 k hk2 hk1] at hval'
  have hcl : ∀ t ∈ (fetchCredit db b).take (k + 1), t.direction = Direction.Credit :=
    fun t ht => (mem_fetchCredit.mp (List.take_subset (k + 1) (fetchCredit db b) ht)).2.1
  rw [← hval', setDebts_map_amount, ← List.map_take, ← sum_signed_eq_sum_amount _ hcl]
  simp

theorem invariantHolds_congr {db₁ db₂ : List Row} {b : String}
    (h : fetchCredit db₁ b = fetchCredit db₂ b) :
    invariantHolds db₁ b ↔ invariantHolds db₂ b := by
  unfold invariantHolds
  rw [h]

/-! Frame lemmas: the sweep for buyer `b` leaves Debit rows and rows of other
buyers untouched. -/

theorem applyUpdatesRow_other_buyer (db : List Row) (b : String) (v : ℚ) (s : Row)
    (hnd : (db.map Row.id).Nodup) (hs : s ∈ db) (hb : s.buyerName ≠ b) :
    applyUpdatesRow (fetchCredit db b) v s = s := by
  by_cases hcr : s.direction = Direction.Credit
  · refine applyUpdatesRow_of_not_mem _ _ _ ?_
    intro hmem
    rcases List.mem_map.mp hmem with ⟨t, htmem, htid⟩
    rcases mem_fetchCredit.mp htmem with ⟨htdb, _, htb⟩
    exact hb ((eq_of_mem_of_id_eq hnd hs htdb (htid ▸ rfl)) ▸ htb)
  · exact applyUpdatesRow_of_not_credit _ _ _ hcr

theorem fetchCredit_recalc_other (db : List Row) {a b : String}
    (hnd : (db.map Row.id).Nodup) (hab : a ≠ b) :
    fetchCredit (recalculate_debts db b) a = fetchCredit db a := by
  rw [fetchCredit_recalc]
  have hpt : ∀ s ∈ fetchCredit db a,
      applyUpdatesRow (fetchCredit db b) 0 s = s := by
    intro s hs
    rcases mem_fetchCredit.mp hs with ⟨hsdb, _, hsb⟩
    exact applyUpdatesRow_other_buyer db b 0 s hnd hsdb (hsb ▸ hab)
  calc (fetchCredit db a).map (applyUpdatesRow (fetchCredit db b) 0)
      = (fetchCredit db a).map id := List.map_congr_left hpt
    _ = fetchCredit db a := List.map_id _

/-! Equivalence of the two running-sum loops on all-Credit row sequences. -/

theorem recalcLoop_eq_unsigned (rows : List Row)
    (h : ∀ r ∈ rows, r.direction = Direction.Credit) : ∀ (v : ℚ) (db : List Row),
    recalcLoop rows v db = recalcLoopUnsigned rows v db := by
  induction rows with
  | nil => intro v db; rfl
  | cons r rest ih =>
      intro v db
      have hr : signedAmount r = r.amount := by
        simp [signedAmount, h r (List.mem_cons_self r rest)]
      simp only [recalcLoop, recalcLoopUnsigned, hr]
      exact ih (fun t ht => h t (List.mem_cons_of_mem r ht)) _ _

theorem recalc_getElem_debit (db2 : List Row) (b2 : String) (k : Nat) (r : Row)
    (hr : db2[k]? = some r) (hdir : r.direction = Direction.Debit) :
    (recalculate_debts db2 b2)[k]? = some r := by
  rw [recalc_eq_map, List.getElem?_map, hr, Option.map_some',
    applyUpdatesRow_of_not_credit _ _ _ (by rw [hdir]; simp)]

/-! Freshness of `AUTOINCREMENT` ids. -/

theorem id_le_maxId : ∀ (db : List Row) (r : Row), r ∈ db → r.id ≤ maxId db := by
  intro db
  induction db with
  | nil => intro r hr; exact absurd hr (List.not_mem_nil r)
  | cons s rest ih =>
      intro r hr
      rcases List.mem_cons.mp hr with h | h
      · rw [h]
        exact le_max_left _ _
      · exact le_trans (ih r h) (le_max_right _ _)

theorem id_lt_nextId (db : List Row) (r : Row) (hr : r ∈ db) : r.id < nextId db :=
  Nat.lt_succ_of_le (id_le_maxId db r hr)

/-! Appending a row with a fresh largest id goes to the end of the fetched
sequence, regardless of its date. -/

theorem insertById_big (x r : Row) (h : x.id < r.id) :
    ∀ m : List Row, insertById x (m ++ [r]) = insertById x m ++ [r] := by
  intro m
  induction m with
  | nil =>
      simp only [List.nil_append, insertById]
      rw [if_pos (Nat.le_of_lt h)]
      rfl
  | cons s rest ih =>
      simp only [List.cons_append, insertById, List.append_eq]
      by_cases hs : x.id ≤ s.id
      · rw [if_pos hs, if_pos hs]
        rfl
      · rw [if_neg hs, if_neg hs, List.cons_append, ih]

theorem sortById_append_big (l : List Row) (r : Row) (h : ∀ s ∈ l, s.id < r.id) :
    sortById (l ++ [r]) = sortById l ++ [r] := by
  induction l with
  | nil => rfl
  | cons s rest ih =>
      simp only [List.cons_append, sortById, List.append_eq]
      rw [ih (fun t ht => h t (List.mem_cons_of_mem s ht)),
        insertById_big s r (h s (List.mem_cons_self s rest))]

theorem fetchCredit_append_big (db : List Row) (b : String) (newRow : Row)
    (hfresh : ∀ r ∈ db, r.id < newRow.id)
    (hdir : newRow.direction = Direction.Credit) (hb : newRow.buyerName = b) :
    fetchCredit (db ++ [newRow]) b = fetchCredit db b ++ [newRow] := by
  unfold fetchCredit
  rw [List.filter_append]
  have hone : ([newRow].filter fun r =>
      decide (r.direction = Direction.Credit ∧ r.buyerName = b)) = [newRow] := by
    simp [hdir, hb]
  rw [hone, sortById_append_big _ _
    (fun s hs => hfresh s (List.mem_of_mem_filter hs))]

/-! Ids are untouched by the edit-form `UPDATE` of a selected row. -/

theorem replace_map_id (db : List Row) (selId : Nat) (inp : EditInput) (v : ℚ) :
    ((db.map (fun r => if r.id = selId then updatedRow selId inp v else r)).map Row.id) =
      db.map Row.id := by
  rw [List.map_map]
  refine List.map_congr_left (fun r _ => ?_)
  by_cases h : r.id = selId
  · simp [h, updatedRow]
  · simp [h]

/-! Reading off one row of a `setDebts` rewrite. -/

theorem setDebts_getElem (l : List Row) (acc : ℚ) (k : Nat) (r : Row)
    (h : (setDebts acc l)[k]? = some r) :
    ∃ hk : k < l.length,
      r = { l.get ⟨k, hk⟩ with debt := acc + ((l.take (k + 1)).map signedAmount).sum } := by
  obtain ⟨hklt, hval⟩ := List.getElem?_eq_some.mp h
  have hk : k < l.length := by rwa [setDebts_length] at hklt
  refine ⟨hk, ?_⟩
  have hge : (setDebts acc l)[k] = (setDebts acc l).get ⟨k, hklt⟩ := rfl
  rw [← hval, hge, setDebts_get l acc k hk hklt]

/-! Concrete invariant checks for one- and two-row Credit sequences. -/

theorem invariantHolds_one {db : List Row} {b : String} (r : Row)
    (hfc : fetchCredit db b = [r]) (hd : r.debt = r.amount) : invariantHolds db b := by
  intro k t hk
  rw [hfc] at hk ⊢
  match k with
  | 0 =>
      simp only [List.getElem?_cons_zero, Option.some.injEq] at hk
      subst hk
      simp [hd]
  | k + 1 => simp at hk

theorem invariantHolds_two {db : List Row} {b : String} (r1 r2 : Row)
    (hfc : fetchCredit db b = [r1, r2]) (h1 : r1.debt = r1.amount)
    (h2 : r2.debt = r1.amount + r2.amount) : invariantHolds db b := by
  intro k t hk
  rw [hfc] at hk ⊢
  match k with
  | 0 =>
      simp only [List.getElem?_cons_zero, Option.some.injEq] at hk
      subst hk
      simp [h1]
  | 1 =>
      simp only [List.getElem?_cons_succ, List.getElem?_cons_zero, Option.some.injEq] at hk
      subst hk
      simp [h2, add_assoc]
  | k + 2 => simp at hk

/-! Deleting a freshly inserted row restores the recalculated state of the
table without it. -/

theorem delete_after_insert (db : List Row) (buyer : String) (row : Row)
    (hnd : (db.map Row.id).Nodup) (hid : row.id = nextId db)
    (hdir : row.direction = Direction.Credit) (hbn : row.buyerName = buyer) :
    (fetchCredit (delete_transaction_flow
        (recalculate_debts (db ++ [row]) buyer) (nextId db)) buyer).map Row.debt =
      (fetchCredit (recalculate_debts db buyer) buyer).map Row.debt := by
  have hshape := applyUpdatesRow_shape (fetchCredit (db ++ [row]) buyer) 0
  have hfid : ∀ s : Row,
      (applyUpdatesRow (fetchCredit (db ++ [row]) buyer) 0 s).id = s.id :=
    fun s => applyUpdatesRow_id _ _ s
  have hnone : db.find? (fun r => decide (r.id = nextId db)) = none :=
    List.find?_eq_none.mpr (fun s hs => by
      simp only [decide_eq_true_eq]
      exact Nat.ne_of_lt (id_lt_nextId db s hs))
  have hfind : (recalculate_debts (db ++ [row]) buyer).find?
      (fun r => decide (r.id = nextId db)) =
      some (applyUpdatesRow (fetchCredit (db ++ [row]) buyer) 0 row) := by
    rw [recalc_eq_map, List.find?_map]
    have hp : ((fun r => decide (r.id = nextId db)) ∘
        applyUpdatesRow (fetchCredit (db ++ [row]) buyer) 0) =
        fun r => decide (r.id = nextId db) := by
      funext s
      simp only [Function.comp]
      rw [hfid s]
    rw [hp, List.find?_append, hnone, Option.none_or]
    simp [hid]
  have hfilter : ((recalculate_debts (db ++ [row]) buyer).filter
      fun r => decide (¬ r.id = nextId db)) =
      db.map (applyUpdatesRow (fetchCredit (db ++ [row]) buyer) 0) := by
    rw [recalc_eq_map, filter_map_pres _ _ (fun s => by rw [hfid s]),
      List.filter_append]
    have hall : (db.filter fun r => decide (¬ r.id = nextId db)) = db :=
      List.filter_eq_self.mpr (fun s hs => by
        simp only [decide_eq_true_eq]
        exact Nat.ne_of_lt (id_lt_nextId db s hs))
    have hone : ([row].filter fun r => decide (¬ r.id = nextId db)) = [] := by
      simp [hid]
    rw [hall, hone, List.append_nil]
  have hndF : ((db.map (applyUpdatesRow (fetchCredit (db ++ [row]) buyer) 0)).map
      Row.id).Nodup := by
    rw [List.map_map]
    have hcongr : db.map (Row.id ∘ applyUpdatesRow (fetchCredit (db ++ [row]) buyer) 0) =
        db.map Row.id := List.map_congr_left (fun s _ => hfid s)
    rw [hcongr]
    exact hnd
  simp only [delete_transaction_flow, hfind]
  rw [applyUpdatesRow_buyerName, hbn, hfilter,
    fetchCredit_recalc_self _ buyer hndF, fetchCredit_recalc_self db buyer hnd,
    fetchCredit_map _ hshape, setDebts_map_shape _ hshape]

/-! The claims. -/

/-- C1. For every buyer and every ledger state (with distinct row ids), after
`recalculate(buyer)` runs, the `k`-th Credit-direction row of that buyer
(taking the buyer's Credit rows ordered by ascending id, with amounts
`a1..an`) has its `Debt` field equal to the running sum `a1 + ... + ak`, for
every `k` and for all `n ≥ 0`; the amount sequence itself is unchanged by the
sweep. -/
theorem C1_recalc_running_sum (db : List Row) (b : String)
    (hnd : (db.map Row.id).Nodup) :
    invariantHolds (recalculate_debts db b) b ∧
    (fetchCredit (recalculate_debts db b) b).map Row.amount =
      (fetchCredit db b).map Row.amount := by
  refine ⟨recalc_invariant db b hnd, ?_⟩
  rw [fetchCredit_recalc_self db b hnd, setDebts_map_amount]

/-- Witness for C1 on the concrete sample ledger. -/
theorem C1_recalc_running_sum_witness :
    (sampleDb.map Row.id).Nodup ∧
    (invariantHolds (recalculate_debts sampleDb "B1") "B1" ∧
      (fetchCredit (recalculate_debts sampleDb "B1") "B1").map Row.amount =
        (fetchCredit sampleDb "B1").map Row.amount) :=
  ⟨by decide, C1_recalc_running_sum sampleDb "B1" (by decide)⟩

/-- C4. For every buyer and every ledger state (with distinct row ids),
calling `recalculate(buyer)` twice in succession leaves the table exactly as
after the first call: the second call changes nothing. -/
theorem C4_recalc_idempotent (db : List Row) (b : String)
    (hnd : (db.map Row.id).Nodup) :
    recalculate_debts (recalculate_debts db b) b = recalculate_debts db b := by
  have hnd' : ((recalculate_debts db b).map Row.id).Nodup := by
    rw [recalc_map_id]; exact hnd
  have hfc : fetchCredit (recalculate_debts db b) b = setDebts 0 (fetchCredit db b) :=
    fetchCredit_recalc_self db b hnd
  rw [recalc_eq_map (recalculate_debts db b) b]
  have hpt : ∀ s ∈ recalculate_debts db b,
      applyUpdatesRow (fetchCredit (recalculate_debts db b) b) 0 s = s := by
    intro s hs
    by_cases hcr : s.direction = Direction.Credit
    · by_cases hmem : s.id ∈ (fetchCredit (recalculate_debts db b) b).map Row.id
      · rcases List.mem_map.mp hmem with ⟨t, htmem, htid⟩
        have hts : t = s :=
          eq_of_mem_of_id_eq hnd' (mem_fetchCredit.mp htmem).1 hs htid
        have hseq : s ∈ fetchCredit (recalculate_debts db b) b := hts ▸ htmem
        obtain ⟨k, hk⟩ := List.mem_iff_getElem?.mp hseq
        obtain ⟨hklt, hval⟩ := List.getElem?_eq_some.mp hk
        have hid : s.id = ((fetchCredit (recalculate_debts db b) b).get ⟨k, hklt⟩).id := by
          rw [List.get_eq_getElem, hval]
        rw [applyUpdatesRow_hit _ k hklt 0 s
          (fetchCredit_ids_nodup b hnd') hcr hid]
        have hk2 : (setDebts 0 (fetchCredit db b))[k]? = some s := by
          rw [← hfc]; exact hk
        obtain ⟨hklt2, hval2⟩ := List.getElem?_eq_some.mp hk2
        have hk3 : k < (fetchCredit db b).length := by
          rwa [setDebts_length] at hklt2
        have hsval : ({ (fetchCredit db b).get ⟨k, hk3⟩ with
            debt := 0 + (((fetchCredit db b).take (k + 1)).map signedAmount).sum } : Row) = s := by
          rw [← setDebts_get (fetchCredit db b) 0 k hk3 hklt2, List.get_eq_getElem, hval2]
        have hdebt : s.debt = 0 + (((fetchCredit db b).take (k + 1)).map signedAmount).sum := by
          rw [← hsval]
        have hsum : ((fetchCredit (recalculate_debts db b) b).take (k + 1)).map signedAmount =
            ((fetchCredit db b).take (k + 1)).map signedAmount := by
          rw [List.map_take, List.map_take, hfc, setDebts_map_signed]
        rw [hsum, ← hdebt, row_eta]
      · exact applyUpdatesRow_of_not_mem _ _ _ hmem
    · exact applyUpdatesRow_of_not_credit _ _ _ hcr
  calc (recalculate_debts db b).map (applyUpdatesRow (fetchCredit (recalculate_debts db b) b) 0)
      = (recalculate_debts db b).map id := List.map_congr_left hpt
    _ = recalculate_debts db b := List.map_id _

/-- Witness for C4 on the concrete sample ledger. -/
theorem C4_recalc_idempotent_witness :
    (sampleDb.map Row.id).Nodup ∧
    recalculate_debts (recalculate_debts sampleDb "B1") "B1" =
      recalculate_debts sampleDb "B1" :=
  ⟨by decide, C4_recalc_idempotent sampleDb "B1" (by decide)⟩

/-- C10. For every buyer and every ledger state, `recalculate_debts` is
extensionally equal to the simplified sweep that unconditionally adds each
fetched row's `Amount` to the running total: since the fetch filters to
Credit-direction rows, the Debit branch of the per-row signed-amount
conditional inside the loop is unreachable. -/
theorem C10_recalc_signed_branch_unreachable (db : List Row) (b : String) :
    recalculate_debts db b = recalculate_debts_simplified db b := by
  unfold recalculate_debts recalculate_debts_simplified
  by_cases h : (fetchCredit db b).isEmpty
  · rw [if_pos h, if_pos h]
  · rw [if_neg h, if_neg h]
    exact recalcLoop_eq_unsigned (fetchCredit db b)
      (fun r hr => (mem_fetchCredit.mp hr).2.1) 0 db

/-- C6. For every buyer and ledger state (with distinct row ids),
`recalculate(buyer)` writes only the `Debt` field of Credit-direction rows of
that buyer: the table keeps its length, every row keeps all its non-`Debt`
columns, every Debit-direction row and every row of another buyer is left
entirely unchanged, and when the buyer has no Credit rows the sweep is a
complete no-op on the table. -/
theorem C6_recalc_frame (db : List Row) (b : String)
    (hnd : (db.map Row.id).Nodup) :
    (fetchCredit db b = [] → recalculate_debts db b = db) ∧
    (recalculate_debts db b).length = db.length ∧
    ∀ (k : Nat) (r : Row), db[k]? = some r →
      ∃ r', (recalculate_debts db b)[k]? = some r' ∧ sameExceptDebt r' r ∧
        ((r.direction = Direction.Debit ∨ r.buyerName ≠ b) → r' = r) := by
  refine ⟨fun h => ?_, ?_, ?_⟩
  · unfold recalculate_debts
    rw [if_pos (by rw [h]; rfl)]
  · rw [recalc_eq_map]
    exact List.length_map db _
  · intro k r hr
    refine ⟨applyUpdatesRow (fetchCredit db b) 0 r, ?_, ?_, ?_⟩
    · rw [recalc_eq_map, List.getElem?_map, hr]
      rfl
    · exact sameExceptDebt_of_shape (applyUpdatesRow_shape _ 0 r)
    · rintro (hdir | hbuyer)
      · refine applyUpdatesRow_of_not_credit _ _ _ ?_
        rw [hdir]
        simp
      · exact applyUpdatesRow_other_buyer db b 0 r hnd (List.getElem?_mem hr) hbuyer

/-- Witness for C6 on the concrete sample ledger, for buyer `B2`. -/
theorem C6_recalc_frame_witness :
    (sampleDb.map Row.id).Nodup ∧
    ((fetchCredit sampleDb "B2" = [] → recalculate_debts sampleDb "B2" = sampleDb) ∧
      (recalculate_debts sampleDb "B2").length = sampleDb.length ∧
      ∀ (k : Nat) (r : Row), sampleDb[k]? = some r →
        ∃ r', (recalculate_debts sampleDb "B2")[k]? = some r' ∧ sameExceptDebt r' r ∧
          ((r.direction = Direction.Debit ∨ r.buyerName ≠ "B2") → r' = r)) :=
  ⟨by decide, C6_recalc_frame sampleDb "B2" (by decide)⟩

/-- C7. Submitting the Add Transaction form with direction Credit and an empty
buyer name (and non-empty customer and flower names, without which the handler
does not run at all) is rejected with a user-facing error message before any
row is created: the result carries the untouched ledger state. -/
theorem C7_credit_requires_buyer (db : List Row) (d cname fname : String)
    (qty rate : ℚ) (hn : cname ≠ "") (hf : fname ≠ "") :
    add_transaction_form db d cname fname qty rate Direction.Credit "" =
      FormResult.rejected
        "Buyer Name is required when Debit/Credit is set to Credit." db := by
  unfold add_transaction_form
  rw [if_neg (by simp [hn, hf]), if_pos ⟨rfl, rfl⟩]

/-- Witness for C7 on the concrete sample ledger. -/
theorem C7_credit_requires_buyer_witness :
    (("cust" : String) ≠ "" ∧ ("Rose" : String) ≠ "") ∧
    add_transaction_form sampleDb "2024-05-01" "cust" "Rose" 2 10 Direction.Credit "" =
      FormResult.rejected
        "Buyer Name is required when Debit/Credit is set to Credit." sampleDb :=
  ⟨⟨by decide, by decide⟩,
    C7_credit_requires_buyer sampleDb "2024-05-01" "cust" "Rose" 2 10
      (by decide) (by decide)⟩

/-- C9. Inserting a Daily Sheet row with direction Debit stores
`Debt = -(qty * rate)` on the new row — the buyer's existing running balance
is not incorporated — and no `recalculate_debts` pass for any buyer ever
rewrites a Debit-direction row, so the value persists. -/
theorem C9_debit_insert_debt (db : List Row) (d cname fname buyer : String)
    (qty rate : ℚ) (hn : cname ≠ "") (hf : fname ≠ "") :
    (∃ db', add_transaction_form db d cname fname qty rate Direction.Debit buyer =
        FormResult.added db' ∧
      db'[db.length]? = some
        { id := nextId db, date := d, name := cname, flowerName := fname,
          qty := qty, rate := rate, amount := qty * rate,
          direction := Direction.Debit, debt := -(qty * rate), buyerName := buyer }) ∧
    ∀ (db2 : List Row) (b2 : String) (k : Nat) (r : Row), db2[k]? = some r →
      r.direction = Direction.Debit → (recalculate_debts db2 b2)[k]? = some r := by
  constructor
  · unfold add_transaction_form
    rw [if_neg (by simp [hn, hf]), if_neg (by simp)]
    refine ⟨_, rfl, ?_⟩
    have hd : (if Direction.Debit = Direction.Credit
        then currentDebt db buyer + qty * rate else -(qty * rate)) = -(qty * rate) := by
      simp
    rw [hd]
    exact recalc_getElem_debit _ buyer _ _ (by simp) rfl
  · intro db2 b2 k r hr hdir
    exact recalc_getElem_debit db2 b2 k r hr hdir

/-- Witness for C9 on the concrete sample ledger. -/
theorem C9_debit_insert_debt_witness :
    (("cust" : String) ≠ "" ∧ ("Rose" : String) ≠ "") ∧
    ((∃ db', add_transaction_form sampleDb "2024-05-01" "cust" "Rose" 3 10
        Direction.Debit "B1" = FormResult.added db' ∧
      db'[sampleDb.length]? = some
        { id := nextId sampleDb, date := "2024-05-01", name := "cust", flowerName := "Rose",
          qty := 3, rate := 10, amount := 3 * 10,
          direction := Direction.Debit, debt := -(3 * 10), buyerName := "B1" }) ∧
    ∀ (db2 : List Row) (b2 : String) (k : Nat) (r : Row), db2[k]? = some r →
      r.direction = Direction.Debit → (recalculate_debts db2 b2)[k]? = some r) :=
  ⟨⟨by decide, by decide⟩,
    C9_debit_insert_debt sampleDb "2024-05-01" "cust" "Rose" "B1" 3 10
      (by decide) (by decide)⟩

/-- C2. For every ledger state satisfying the prefix-sum invariant for buyers
`a` and `b`, editing a Credit transaction to move it from buyer `a` to buyer
`b` through the Daily Sheet update flow recalculates both buyers, and
afterwards both `a`'s and `b`'s Credit-row sequences independently satisfy the
prefix-sum invariant. -/
theorem C2_buyer_reassignment (db : List Row) (selId : Nat) (inp : EditInput)
    (old : Row) (a b : String) (hnd : (db.map Row.id).Nodup)
    (hfind : db.find? (fun r => decide (r.id = selId)) = some old)
    (holddir : old.direction = Direction.Credit)
    (hA : old.buyerName = a) (hB : inp.buyerName = b) (hab : a ≠ b)
    (hdir : inp.direction = Direction.Credit)
    (hinvA : invariantHolds db a) (hinvB : invariantHolds db b) :
    invariantHolds (edit_transaction_update db selId inp) a ∧
    invariantHolds (edit_transaction_update db selId inp) b := by
  have hne : ¬ inp.buyerName = old.buyerName := by
    intro h
    exact hab (by rw [← hA, ← hB, h])
  have heq : edit_transaction_update db selId inp =
      recalculate_debts (recalculate_debts (db.map (fun r =>
        if r.id = selId then updatedRow selId inp (edit_new_debt db inp old) else r))
        a) b := by
    simp only [edit_transaction_update, hfind]
    rw [if_neg hne, hA, hB]
  rw [heq]
  have hnd1 : ((db.map (fun r =>
      if r.id = selId then updatedRow selId inp (edit_new_debt db inp old) else r)).map
      Row.id).Nodup := by
    rw [replace_map_id]
    exact hnd
  have hnd2 : ((recalculate_debts (db.map (fun r =>
      if r.id = selId then updatedRow selId inp (edit_new_debt db inp old) else r))
      a).map Row.id).Nodup := by
    rw [recalc_map_id]
    exact hnd1
  exact ⟨(invariantHolds_congr (fetchCredit_recalc_other _ hnd2 hab)).mpr
      (recalc_invariant _ a hnd1),
    recalc_invariant _ b hnd2⟩

/-- Witness for C2: moving the Credit row with id 1 from buyer `A` to buyer
`B` in the two-buyer sample ledger. -/
theorem C2_buyer_reassignment_witness :
    (sampleDb2.map Row.id).Nodup ∧
    sampleDb2.find? (fun r => decide (r.id = 1)) =
      some (sampleRow 1 "2024-02-01" 100 Direction.Credit 100 "A") ∧
    (invariantHolds (edit_transaction_update sampleDb2 1 sampleEdit) "A" ∧
      invariantHolds (edit_transaction_update sampleDb2 1 sampleEdit) "B") := by
  refine ⟨by decide, by decide, ?_⟩
  refine C2_buyer_reassignment sampleDb2 1 sampleEdit
    (sampleRow 1 "2024-02-01" 100 Direction.Credit 100 "A") "A" "B"
    (by decide) (by decide) rfl rfl rfl (by decide) rfl ?_ ?_
  · exact invariantHolds_one (sampleRow 1 "2024-02-01" 100 Direction.Credit 100 "A")
      (by decide) rfl
  · exact invariantHolds_one (sampleRow 2 "2024-02-02" 70 Direction.Credit 70 "B")
      (by decide) rfl

/-- C3. Inserting a Credit row for a buyer through the Add Transaction flow
and then deleting it through the Daily Sheet delete flow (which recalculates
that buyer) yields the same `Debt` sequence on the remaining Credit rows as
recalculating the ledger into which that row was never inserted. -/
theorem C3_delete_rebalances (db : List Row) (buyer d cname fname : String)
    (qty rate : ℚ) (hnd : (db.map Row.id).Nodup) (hn : cname ≠ "") (hf : fname ≠ "")
    (hb : buyer ≠ "") :
    ∀ db', add_transaction_form db d cname fname qty rate Direction.Credit buyer =
        FormResult.added db' →
      (fetchCredit (delete_transaction_flow db' (nextId db)) buyer).map Row.debt =
        (fetchCredit (recalculate_debts db buyer) buyer).map Row.debt := by
  intro db' hadd
  unfold add_transaction_form at hadd
  rw [if_neg (by simp [hn, hf]), if_neg (by simp [hb]), FormResult.added.injEq] at hadd
  subst hadd
  exact delete_after_insert db buyer _ hnd rfl (by simp) rfl

/-- Witness for C3: inserting and deleting a Credit purchase of 2 kg at rate
30 by buyer `B1` in the sample ledger. -/
theorem C3_delete_rebalances_witness :
    (sampleDb.map Row.id).Nodup ∧
    add_transaction_form sampleDb "2024-05-01" "cust" "Rose" 2 30 Direction.Credit "B1" =
      FormResult.added (recalculate_debts (sampleDb ++ [sampleInsRow]) "B1") ∧
    (fetchCredit (delete_transaction_flow
        (recalculate_debts (sampleDb ++ [sampleInsRow]) "B1") (nextId sampleDb)) "B1").map
        Row.debt =
      (fetchCredit (recalculate_debts sampleDb "B1") "B1").map Row.debt := by
  have hadd : add_transaction_form sampleDb "2024-05-01" "cust" "Rose" 2 30
      Direction.Credit "B1" =
      FormResult.added (recalculate_debts (sampleDb ++ [sampleInsRow]) "B1") := by
    have hcd : currentDebt sampleDb "B1" = 250 := by
      norm_num +decide [currentDebt, sampleDb, sampleRow, signedAmount]
    unfold add_transaction_form
    rw [if_neg (by decide), if_neg (by decide), hcd]
    norm_num [nextId, maxId, sampleDb, sampleRow, sampleInsRow]
  exact ⟨by decide, hadd,
    C3_delete_rebalances sampleDb "B1" "2024-05-01" "cust" "Rose" 2 30
      (by decide) (by decide) (by decide) (by decide) _ hadd⟩

/-- C5. The running-sum order used by the recalculation is ascending id
(insertion order), never date order: appending a Credit row whose date is
earlier than an existing Credit row of the same buyer still places the new
row last in the fetched sequence, and every pre-existing Credit row of a
ledger satisfying the invariant keeps its `Debt` value through the
recalculation that follows the insert. -/
theorem C5_id_order_not_date (db : List Row) (b : String) (newRow : Row)
    (hnd : (db.map Row.id).Nodup)
    (hfresh : ∀ r ∈ db, r.id < newRow.id)
    (hdir : newRow.direction = Direction.Credit)
    (hbn : newRow.buyerName = b)
    (hdate : ∃ r ∈ db, r.direction = Direction.Credit ∧ r.buyerName = b ∧
      strLtB newRow.date r.date = true)
    (hinv : invariantHolds db b) :
    (fetchCredit (db ++ [newRow]) b).map Row.id =
      (fetchCredit db b).map Row.id ++ [newRow.id] ∧
    ∀ (k : Nat) (r r' : Row), (fetchCredit db b)[k]? = some r →
      (fetchCredit (recalculate_debts (db ++ [newRow]) b) b)[k]? = some r' →
      r'.debt = r.debt := by
  have happ := fetchCredit_append_big db b newRow hfresh hdir hbn
  constructor
  · rw [happ, List.map_append]
    rfl
  · intro k r r' hk hk'
    have hnd2 : ((db ++ [newRow]).map Row.id).Nodup := by
      rw [List.map_append, List.nodup_append]
      refine ⟨hnd, List.nodup_singleton _, ?_⟩
      intro x hx hx2
      rcases List.mem_map.mp hx with ⟨s, hs, rfl⟩
      rw [List.map_cons, List.map_nil, List.mem_singleton] at hx2
      exact Nat.lt_irrefl _ (hx2 ▸ hfresh s hs)
    rw [fetchCredit_recalc_self (db ++ [newRow]) b hnd2, happ] at hk'
    obtain ⟨hklt0, hval0⟩ := List.getElem?_eq_some.mp hk
    obtain ⟨hkl, hr'⟩ := setDebts_getElem (fetchCredit db b ++ [newRow]) 0 k r' hk'
    have htake : (fetchCredit db b ++ [newRow]).take (k + 1) =
        (fetchCredit db b).take (k + 1) :=
      List.take_append_of_le_length (by omega)
    have hcl : ∀ t ∈ (fetchCredit db b).take (k + 1), t.direction = Direction.Credit :=
      fun t ht => (mem_fetchCredit.mp (List.take_subset _ _ ht)).2.1
    rw [hr', hinv k r hk, ← List.map_take, ← sum_signed_eq_sum_amount _ hcl, ← htake]
    simp

/-- Witness for C5: `sampleNewRow` (id 5, dated 2023-12-25, before every
existing row) appended for buyer `B1`. -/
theorem C5_id_order_not_date_witness :
    ((sampleDb.map Row.id).Nodup ∧ (∀ r ∈ sampleDb, r.id < sampleNewRow.id) ∧
      (∃ r ∈ sampleDb, r.direction = Direction.Credit ∧ r.buyerName = "B1" ∧
        strLtB sampleNewRow.date r.date = true)) ∧
    ((fetchCredit (sampleDb ++ [sampleNewRow]) "B1").map Row.id =
        (fetchCredit sampleDb "B1").map Row.id ++ [sampleNewRow.id] ∧
      ∀ (k : Nat) (r r' : Row), (fetchCredit sampleDb "B1")[k]? = some r →
        (fetchCredit (recalculate_debts (sampleDb ++ [sampleNewRow]) "B1") "B1")[k]? =
          some r' → r'.debt = r.debt) := by
  refine ⟨⟨by decide, by decide, ?_⟩, ?_⟩
  · exact ⟨sampleRow 1 "2024-01-01" 100 Direction.Credit 100 "B1",
      List.mem_cons_self _ _, rfl, rfl, by decide⟩
  · refine C5_id_order_not_date sampleDb "B1" sampleNewRow (by decide) (by decide)
      rfl rfl ⟨sampleRow 1 "2024-01-01" 100 Direction.Credit 100 "B1",
        List.mem_cons_self _ _, rfl, rfl, by decide⟩ ?_
    exact invariantHolds_two
      (sampleRow 1 "2024-01-01" 100 Direction.Credit 100 "B1")
      (sampleRow 3 "2024-01-03" 200 Direction.Credit 300 "B1")
      (by decide) rfl (by norm_num [sampleRow])

/-- C8. Evaluating the price lookups at a state with no matching entry: the
exact-match `getPrice` and the desktop `fetch_today_price` both return `none`
for an absent entry, but the Streamlit pre-fill `default_rate` collapses the
absent case to `0`, the very value it also produces for an explicit zero
price — so the rate shown for a missing price entry is indistinguishable from
an explicit zero price, contradicting the claim for the Streamlit flows. -/
theorem C8_absent_price_evaluation :
    getPrice [] "Rose" "2024-05-01" = none ∧
    default_rate [] "Rose" "2024-05-01" = 0 ∧
    getPrice [{ flowerName := "Rose", date := "2024-05-01", price := 0 }]
      "Rose" "2024-05-01" = some 0 ∧
    default_rate [{ flowerName := "Rose", date := "2024-05-01", price := 0 }]
      "Rose" "2024-05-01" = 0 ∧
    fetch_today_price [] "Rose" "2024-05-01" = none := by
  decide

end FlowerShop
